import Mathlib

/-!
# Verification of the fileaction workflow engine against its specification

Shallow embedding of the core data model and operations of the
`ah-its-andy/fileaction` repository (Go), together with theorems settling
the frozen claims about the code.

Strings are modelled as `List Char` (`Str`).  Go maps are modelled as
association lists (`EnvList`); Go map iteration order is unspecified, so
every statement proved about a map-valued model is independent of entry
order within one map (insertion of the entries of a single map with unique
keys yields the same map whatever the order).
-/

set_option autoImplicit false

/-- Strings are modelled as lists of characters. -/
abbrev Str := List Char

/-- Association list modelling a Go `map[string]string`. -/
abbrev EnvList := List (Str × Str)

/-- First-match lookup: the value bound to `k`, scanning left to right.
For lists with unique keys (all lists built by `mapInsert`) this is *the*
lookup. -/
def envLookup : EnvList → Str → Option Str
  | [], _ => none
  | (k', v') :: rest, k => if k' = k then some v' else envLookup rest k

/-- Last-match lookup: the value of the *last* entry with key `k`.  This is
the resolution rule Go's `os/exec` applies to duplicate keys in `cmd.Env`
("only the last value in the slice for each duplicate key is used"). -/
def lookupLast : EnvList → Str → Option Str
  | [], _ => none
  | (k', v') :: rest, k =>
    match lookupLast rest k with
    | some v => some v
    | none => if k' = k then some v' else none

/-- Go map assignment `m[k] = v`: replace the binding of `k` if present,
otherwise append the new binding. -/
def mapInsert : EnvList → Str → Str → EnvList
  | [], k, v => [(k, v)]
  | (k', v') :: rest, k, v =>
    if k' = k then (k, v) :: rest else (k', v') :: mapInsert rest k v

/-- `for k, v := range src { dst[k] = v }` -/
def mapInsertAll (dst : EnvList) (src : EnvList) : EnvList :=
  src.foldl (fun m p => mapInsert m p.1 p.2) dst

/-- Keys of an association list. -/
def envKeys (m : EnvList) : List Str := m.map Prod.fst

/-!
## `MergeEnvironment` (workflow/plugin_parser source, `MergeEnvironment`)

    // Priority: stepEnv > pluginEnv > workflowEnv > baseEnv
    result := make(map[string]string)
    for k, v := range baseEnv { result[k] = v }
    for k, v := range workflowEnv { result[k] = v }
    for k, v := range pluginEnv { result[k] = v }
    for k, v := range stepEnv { result[k] = v }
-/
def MergeEnvironment (baseEnv workflowEnv pluginEnv stepEnv : EnvList) : EnvList :=
  mapInsertAll (mapInsertAll (mapInsertAll (mapInsertAll [] baseEnv) workflowEnv) pluginEnv) stepEnv

/-- `executeStep` (scheduler/executor.go:402-418): the subprocess environment
slice is `os.Environ()` followed by the workflow-level entries followed by the
(variable-substituted) step-level entries. -/
def stepCmdEnv (environ globalEnv stepEnv : EnvList) : EnvList :=
  environ ++ globalEnv ++ stepEnv

/-- `executePluginStep` (scheduler/executor.go:644-657): the subprocess
environment slice is `os.Environ()` followed by the entries of
`MergeEnvironment(∅, workflowEnv, pluginEnv, pluginStepEnv)`. -/
def pluginCmdEnv (environ mergedEnv : EnvList) : EnvList :=
  environ ++ mergedEnv

/-!
## `PreparePluginInputs` (workflow/plugin_parser source, `PreparePluginInputs`)

    result := make(map[string]string)
    for name, input := range pluginDef.Inputs {
        if input.Default != nil { result[name] = fmt.Sprintf("%v", input.Default) }
    }
    for name, value := range providedInputs { result[name] = value }
    for name, input := range pluginDef.Inputs {
        if input.Required {
            if _, ok := result[name]; !ok {
                return nil, fmt.Errorf("required input '%s' is missing", name)
            }
        }
    }
    return result, nil

A declared input's `default` is modelled as `Option Str` (the formatted Go
value when the YAML supplies one, `none` when it is nil).
-/

/-- A plugin's declared input (`PluginInput`): only the fields
`PreparePluginInputs` reads are modelled. -/
structure PluginInput where
  default : Option Str
  required : Bool
  deriving DecidableEq

/-- The declared inputs of a plugin, as the entry list of the Go map
`map[string]PluginInput` (unique names). -/
abbrev InputDecls := List (Str × PluginInput)

/-- The association list of declared defaults, in declaration order. -/
def defaultsOf (decls : InputDecls) : EnvList :=
  decls.filterMap fun d =>
    match d.2.default with
    | some v => some (d.1, v)
    | none => none

/-- The first pass (defaults) followed by the second pass (caller-provided
values override). -/
def mergedInputs (decls : InputDecls) (provided : EnvList) : EnvList :=
  mapInsertAll
    (decls.foldl (fun m d =>
      match d.2.default with
      | some v => mapInsert m d.1 v
      | none => m) [])
    provided

/-- `PreparePluginInputs`: defaults first, provided values override, then
any `required` input with no final value is an error. -/
def PreparePluginInputs (decls : InputDecls) (provided : EnvList) :
    Except Str EnvList :=
  let merged := mergedInputs decls provided
  match decls.find? (fun d => d.2.required && (envLookup merged d.1).isNone) with
  | some d => Except.error d.1
  | none => Except.ok merged

/-!
## `SubstituteVariables` (workflow/parser.go:91-109)

    replacements := map[string]string{
        "${{ input_path }}":  vars.InputPath,
        "${{ output_path }}": vars.OutputPath,
        "${{ file_name }}":   vars.FileName,
        "${{ file_dir }}":    vars.FileDir,
        "${{ file_base }}":   vars.FileBase,
        "${{ file_ext }}":    vars.FileExt,
    }
    for placeholder, value := range replacements {
        result = strings.ReplaceAll(result, placeholder, value)
    }

`strings.ReplaceAll` replaces the non-overlapping occurrences of the pattern
left to right.  The model applies the six replacements in the order of the
Go map literal; Go's map iteration order is unspecified, and every statement
proved below is order-independent (the hypotheses rule out any interaction
between the six patterns and the substituted values).
-/

/-- `startsWith pat s`: `s` starts with `pat`. -/
def startsWith : Str → Str → Bool
  | [], _ => true
  | _ :: _, [] => false
  | p :: ps, c :: cs => p = c && startsWith ps cs

/-- `containsSub s sub`: `sub` occurs in `s` (Go `strings.Contains`). -/
def containsSub : Str → Str → Bool
  | [], sub => startsWith sub []
  | c :: rest, sub => startsWith sub (c :: rest) || containsSub rest sub

/-- Go `strings.ReplaceAll(s, old, new)` for a non-empty `old`: scan left to
right; where `old` matches, emit `new` and skip past the match (the skip is
written `rest.drop (old.length - 1)`, which equals `(c :: rest).drop
old.length` since `old ≠ []`); Go's empty-`old` insertion behaviour is never
exercised because all six placeholders are non-empty. -/
def replaceAll (old new : Str) : Str → Str
  | [] => []
  | c :: rest =>
    if _h : old ≠ [] ∧ startsWith old (c :: rest) = true then
      new ++ replaceAll old new (rest.drop (old.length - 1))
    else
      c :: replaceAll old new rest
  termination_by s => s.length
  decreasing_by
  · simp only [List.length_drop, List.length_cons]
    omega
  · simp only [List.length_cons]
    omega

/-- The struct `workflow.Variables` (workflow/parser.go:52-59). -/
structure Variables where
  InputPath : Str
  OutputPath : Str
  FileName : Str
  FileDir : Str
  FileBase : Str
  FileExt : Str

def phInputPath : Str := "$\x7b\x7b input_path \x7d\x7d".toList

def phOutputPath : Str := "$\x7b\x7b output_path \x7d\x7d".toList

def phFileName : Str := "$\x7b\x7b file_name \x7d\x7d".toList

def phFileDir : Str := "$\x7b\x7b file_dir \x7d\x7d".toList

def phFileBase : Str := "$\x7b\x7b file_base \x7d\x7d".toList

def phFileExt : Str := "$\x7b\x7b file_ext \x7d\x7d".toList

/-- The six placeholders of the `replacements` map literal. -/
def placeholderStrings : List Str :=
  [phInputPath, phOutputPath, phFileName, phFileDir, phFileBase, phFileExt]

/-- `SubstituteVariables` (workflow/parser.go:91-109): one `ReplaceAll` per
placeholder, applied in the order of the Go map literal (innermost first). -/
def SubstituteVariables (template : Str) (vars : Variables) : Str :=
  replaceAll phFileExt vars.FileExt
    (replaceAll phFileBase vars.FileBase
      (replaceAll phFileDir vars.FileDir
        (replaceAll phFileName vars.FileName
          (replaceAll phOutputPath vars.OutputPath
            (replaceAll phInputPath vars.InputPath template)))))

/-- `s` contains none of the six placeholders. -/
abbrev noPlaceholders (s : Str) : Prop :=
  ∀ ph ∈ placeholderStrings, containsSub s ph = false

/-- Every field value of `v` contains none of the six placeholders. -/
abbrev cleanVars (v : Variables) : Prop :=
  noPlaceholders v.InputPath ∧ noPlaceholders v.OutputPath ∧
  noPlaceholders v.FileName ∧ noPlaceholders v.FileDir ∧
  noPlaceholders v.FileBase ∧ noPlaceholders v.FileExt

/-- Concrete variable binding used by the C10 witness. -/
def witnessVars : Variables :=
  ⟨"/in/a.txt".toList, "/out/a.out".toList, "a.txt".toList,
   "/in".toList, "a".toList, ".txt".toList⟩

/-!
## Glob and ignore matching (workflow/parser.go:137-234)

`filepath.Match` is modelled for the `*` and `?` pattern elements with Go's
rule that neither matches a path separator; character classes and backslash
escapes are not modelled (no pattern in this development, nor in the ignore
patterns exercised by the claims, uses them).  Paths use `/` as separator,
so Go's `filepath.ToSlash` is the identity and the source's second,
slash-normalized `filepath.Match` attempt coincides with the first.
-/

/-- Recursion core of `filepath.Match`: every recursive call shortens the
pattern or the name, so the fuel `|pattern| + |name| + 1` supplied by
`globMatch` is never exhausted (the fuel only makes the recursion
structural). -/
def globMatchAux : Nat → Str → Str → Bool
  | 0, _, _ => false
  | _ + 1, [], [] => true
  | _ + 1, [], _ :: _ => false
  | fuel + 1, pc :: p, s =>
    if pc = '*' then
      globMatchAux fuel p s ||
        (match s with
         | [] => false
         | c :: s' => if c = '/' then false else globMatchAux fuel (pc :: p) s')
    else
      match s with
      | [] => false
      | c :: s' =>
        if pc = '?' then (if c = '/' then false else globMatchAux fuel p s')
        else (pc = c) && globMatchAux fuel p s'

/-- `filepath.Match(pattern, name)` for patterns built from literal
characters, `*` and `?`, with Go's rule that neither wildcard matches the
path separator. -/
def globMatch (p s : Str) : Bool := globMatchAux (p.length + s.length + 1) p s

/-- `strings.Split(s, sep)` for a one-character separator. -/
def splitChar : Str → Char → List Str
  | [], _ => [[]]
  | c :: rest, sep =>
    if c = sep then [] :: splitChar rest sep
    else
      match splitChar rest sep with
      | [] => [[c]]
      | t :: ts => (c :: t) :: ts

/-- `strings.FieldsFunc(s, isSep)`: the non-empty runs between separators. -/
def fieldsFunc (s : Str) (isSep : Char → Bool) : List Str :=
  ((s.foldr (fun c acc =>
      match acc with
      | [] => if isSep c then [[]] else [[c]]
      | t :: ts => if isSep c then [] :: t :: ts else (c :: t) :: ts) [])).filter
    (fun f => !f.isEmpty)

def isSpaceChar (c : Char) : Bool :=
  c = ' ' || c = '\t' || c = '\n' || c = '\r'

/-- `strings.TrimSpace`. -/
def trimSpace (s : Str) : Str :=
  ((s.dropWhile isSpaceChar).reverse.dropWhile isSpaceChar).reverse

/-- `strings.Trim(s, cutset)`. -/
def trimChars (s : Str) (cutset : List Char) : Str :=
  ((s.dropWhile (cutset.contains ·)).reverse.dropWhile (cutset.contains ·)).reverse

/-- `filepath.Base` for slash-separated paths. -/
def pathBase (p : Str) : Str :=
  if p = [] then ['.']
  else
    match ((splitChar p '/').filter (fun s => !s.isEmpty)).getLast? with
    | some s => s
    | none => ['/']

/-- `filepath.Dir` for slash-separated paths (without Go's trailing `Clean`,
which the ignore matcher's substring checks do not depend on here). -/
def pathDir (p : Str) : Str :=
  match p.reverse.dropWhile (fun c => if c = '/' then false else true) with
  | [] => ['.']
  | _ :: t =>
    match t.reverse with
    | [] => ['/']
    | d => d

/-- `MatchesFileGlob` (workflow/parser.go:137-165): split the pattern on `,`
and `|`, fall back to the whole pattern when no field remains, and match the
base name against any alternative. -/
def MatchesFileGlob (filePath globPattern : Str) : Bool :=
  let fileName := pathBase filePath
  let patterns := fieldsFunc globPattern (fun r => r = ',' || r = '|')
  let patterns := if patterns = [] then [globPattern] else patterns
  patterns.any fun pattern => globMatch (trimSpace pattern) fileName

/-- `MatchesIgnorePattern` (workflow/parser.go:167-234). -/
def MatchesIgnorePattern (filePath : Str) (ignorePatterns : List Str) : Bool :=
  if ignorePatterns = [] then false
  else
    let fileName := pathBase filePath
    let dirPath := pathDir filePath
    ignorePatterns.any fun pat0 =>
      let pat := trimSpace pat0
      if pat = [] then false
      else if containsSub pat ['*', '*'] || containsSub pat ['/'] then
        globMatch pat filePath ||
          (if containsSub pat ['*', '*'] then
            (splitChar (trimChars pat ['*', '/']) '/').any fun part =>
              (if part = [] then false
               else containsSub dirPath part || containsSub filePath part)
           else false)
      else
        globMatch pat fileName ||
          (splitChar filePath '/').any fun part => part = pat

/-!
## Workflow parsing (workflow/parser.go:12-89) and the scan pipeline
(scanner/scanner.go:137-219, watcher/watcher.go:502-594)

`Parse` is modelled from the YAML-decoded `WorkflowDef` value onward (Go's
`yaml.Unmarshal` leaves absent fields at their zero values).
-/

/-- `workflow.Options` (workflow/parser.go:42-49). -/
structure WOptions where
  Concurrency : Int
  IncludeSubdirs : Bool
  FileGlob : Str
  SkipOnNoChange : Bool
  OutputDirPattern : Str
  Ignore : List Str
  deriving DecidableEq

/-- `workflow.Step` (workflow/parser.go:35-39). -/
structure WStep where
  Name : Str
  Run : Str
  Env : EnvList
  deriving DecidableEq

/-- `workflow.OnConfig` (workflow/parser.go:24-26). -/
structure OnConfig where
  Paths : List Str
  deriving DecidableEq

/-- `workflow.ConvertConfig` (workflow/parser.go:29-32). -/
structure ConvertConfig where
  From : Str
  To : Str
  deriving DecidableEq

/-- `workflow.WorkflowDef` (workflow/parser.go:13-21). -/
structure WorkflowDef where
  Name : Str
  Description : Str
  On : OnConfig
  Convert : ConvertConfig
  Steps : List WStep
  Options : WOptions
  Env : EnvList
  deriving DecidableEq

/-- `workflow.Parse` (workflow/parser.go:62-89), from the decoded value:
defaults for concurrency and file glob, then — exactly as the source does at
parser.go:75 — `SkipOnNoChange` is assigned `true` unconditionally (the
comment there reads "Default to true"), then the required-field checks. -/
def Parse (raw : WorkflowDef) : Except Str WorkflowDef :=
  let opts0 := raw.Options
  let opts1 := { opts0 with
    Concurrency := if opts0.Concurrency = 0 then 4 else opts0.Concurrency }
  let opts2 := { opts1 with
    FileGlob := if opts1.FileGlob = [] then ['*'] else opts1.FileGlob }
  let opts3 := { opts2 with SkipOnNoChange := true }
  let w := { raw with Options := opts3 }
  if w.Name = [] then Except.error "workflow name is required".toList
  else if w.On.Paths = [] then
    Except.error "at least one path must be specified in on.paths".toList
  else if w.Steps = [] then Except.error "at least one step is required".toList
  else Except.ok w

/-- Persisted effects of scanning one file. -/
structure ScanEffect where
  fileCreated : Bool
  fileUpdated : Bool
  taskCreated : Bool
  deriving DecidableEq

/-- `scanFile` (watcher/watcher.go:502-594; scanner/scanner.go:137-219 is
the same decision tree): check the file glob, then compare the content
digest with the indexed row.  A new digest creates a File row, a changed
digest updates it, and a Task is emitted when the file is new or changed, or
when it is unchanged but `SkipOnNoChange` is false.  Neither this function
nor the directory walk that feeds it (scanner/scanner.go:103-135,
watcher/watcher.go:444-500, watcher/watcher.go:277-363) ever consults
`Options.Ignore` or calls `MatchesIgnorePattern`. -/
def scanFile (wdef : WorkflowDef) (filePath : Str) (existingMD5 : Option Str)
    (md5 : Str) : ScanEffect :=
  if MatchesFileGlob filePath wdef.Options.FileGlob then
    match existingMD5 with
    | none => ⟨true, false, true⟩
    | some m =>
      if m = md5 then
        if wdef.Options.SkipOnNoChange then ⟨false, false, false⟩
        else ⟨false, false, true⟩
      else ⟨false, true, true⟩
  else ⟨false, false, false⟩

/-- A workflow whose options carry the ignore pattern `skipme.txt`. -/
def wdefC4 : WorkflowDef :=
  { Name := "w".toList
    Description := []
    On := ⟨["/data".toList]⟩
    Convert := ⟨[], []⟩
    Steps := [⟨"s".toList, "echo hi".toList, []⟩]
    Options := ⟨4, false, ['*'], true, [], ["skipme.txt".toList]⟩
    Env := [] }

/-- The YAML-decoded value of a workflow whose source text sets
`skip_on_nochange: false` (Go decodes the explicit `false` into the bool
field; the other options are at their zero values). -/
def rawC5 : WorkflowDef :=
  { Name := "w".toList
    Description := []
    On := ⟨["/data".toList]⟩
    Convert := ⟨[], []⟩
    Steps := [⟨"s".toList, "echo hi".toList, []⟩]
    Options := ⟨0, false, [], false, [], []⟩
    Env := [] }

/-- The value `Parse` actually returns for `rawC5`. -/
def parsedC5 : WorkflowDef :=
  { rawC5 with Options := ⟨4, false, ['*'], true, [], []⟩ }

/-!
## Task execution (scheduler/executor.go:132-370, 372-518) and cancellation
(scheduler/scheduler.go:159-181)

`ExecuteTask` is modelled as a function of the task's initial status, whether
creating the output directory succeeds, and the behaviour of each step's
subprocess.  The model records, in order, every status value persisted to
the task row (`statusWrites`), the `task_step` rows created (with exit code
and final step status), whether `LogText` was assigned from the scratch log
(whose content is non-empty by then: `writeLog` lines precede every path
that reaches the epilogue), and whether the scratch log file
`<logDir>/<taskID>.log` still exists on return.

A step behaviour is either a normal subprocess exit with a code, or a kill
by `CancelTask` while the subprocess is in flight: `CancelTask`
(scheduler.go:159-181) fires the task context's cancel function and then
persists `cancelled` via `UpdateStatus` while the executor is still waiting
on the subprocess, `exec.CommandContext` kills the process, `cmd.Run`
returns an `ExitError` whose `ExitCode()` is `-1`, and `executeStep` takes
the `default` branch of the exit-code switch (step `failed`, error
returned), so the outer loop breaks with `allStepsSucceeded = false`.
-/

inductive TaskStatus where
  | pending
  | running
  | completed
  | failed
  | cancelled
  deriving DecidableEq

inductive StepStatus where
  | pending
  | running
  | completed
  | failed
  deriving DecidableEq

/-- What a step's subprocess does. -/
inductive StepBeh where
  | exits (code : Int)
  | killedByCancel
  deriving DecidableEq

/-- A persisted `task_step` row after the step finished. -/
structure StepRow where
  exitCode : Int
  status : StepStatus
  deriving DecidableEq

/-- The exit-code switch of `executeStep` (scheduler/executor.go:480-497):
`0` and `100` mark the step `completed`, everything else `failed`. -/
def stepStatusOf (code : Int) : StepStatus :=
  if code = 0 then .completed
  else if code = 100 then .completed
  else .failed

/-- What `executeStep` returns to the loop (scheduler/executor.go:499-517):
`nil` for 0, `WorkflowStopSuccess` for 100, `WorkflowStopFailure` for 101,
a plain error for any other non-zero code. -/
inductive StepSignal where
  | ok
  | stopSuccess
  | stopFailure
  | failedErr
  deriving DecidableEq

def stepSignalOf (code : Int) : StepSignal :=
  if code = 0 then .ok
  else if code = 100 then .stopSuccess
  else if code = 101 then .stopFailure
  else .failedErr

/-- How the step loop of `ExecuteTask` ended
(scheduler/executor.go:234-322). -/
inductive LoopExit where
  | allOk
  | stoppedSuccess
  | stoppedFailure
  | stepFailed
  deriving DecidableEq

/-- The step loop (scheduler/executor.go:239-322): one `task_step` row per
executed step; `ok` continues with the next step, every other signal breaks.
The third component lists the task-row status writes performed by
`CancelTask` interleaved during the step (scheduler.go:171-178). -/
def stepLoop : List StepBeh → List StepRow × LoopExit × List TaskStatus
  | [] => ([], .allOk, [])
  | b :: rest =>
    match b with
    | .killedByCancel =>
      ([⟨-1, stepStatusOf (-1)⟩], .stepFailed, [.cancelled])
    | .exits code =>
      match stepSignalOf code with
      | .ok =>
        let r := stepLoop rest
        (⟨code, stepStatusOf code⟩ :: r.1, r.2.1, r.2.2)
      | .stopSuccess => ([⟨code, stepStatusOf code⟩], .stoppedSuccess, [])
      | .stopFailure => ([⟨code, stepStatusOf code⟩], .stoppedFailure, [])
      | .failedErr => ([⟨code, stepStatusOf code⟩], .stepFailed, [])

/-- Observable outcome of `ExecuteTask`. -/
structure ExecOutcome where
  statusWrites : List TaskStatus
  stepRows : List StepRow
  logTextSet : Bool
  scratchExists : Bool
  deriving DecidableEq

/-- `ExecuteTask` (scheduler/executor.go:132-370):

* not `pending` → return before any write (executor.go:148-151);
* `pending` → persist `running` (197-203), write the header log lines
  (205-216), create the output directory (218-228): on failure persist
  `failed` and return *without* assigning `LogText` and without removing the
  scratch file (only the deferred flush/close run);
* otherwise run the step loop, then persist the terminal status
  (`completed` iff the loop ended `allOk` or `stoppedSuccess`, 326-341),
  read the scratch file into `LogText` (348-354), persist (356-358), and
  remove the scratch file (363-366). -/
def ExecuteTask (initialStatus : TaskStatus) (mkdirOk : Bool)
    (behs : List StepBeh) : ExecOutcome :=
  if initialStatus = .pending then
    if mkdirOk then
      let r := stepLoop behs
      let finalStatus : TaskStatus :=
        match r.2.1 with
        | .allOk => .completed
        | .stoppedSuccess => .completed
        | .stoppedFailure => .failed
        | .stepFailed => .failed
      ⟨.running :: r.2.2 ++ [finalStatus], r.1, true, false⟩
    else ⟨[.running, .failed], [], false, true⟩
  else ⟨[], [], false, false⟩

/-- The task's status as persisted after everything settled: the last status
write wins. -/
def finalPersistedStatus (o : ExecOutcome) : Option TaskStatus :=
  o.statusWrites.getLast?

/-!
## `retryTask` (api/server.go:409-430)

    task, err := repo.GetByID(id)
    if err != nil { return 404 }
    task.Status = models.TaskStatusPending
    task.ErrorMessage = ""
    task.StartedAt = nil
    task.CompletedAt = nil
    repo.Update(task)

There is no check of the task's current status.
-/

/-- The task-row fields `retryTask` touches or preserves. -/
structure TaskRow where
  status : TaskStatus
  errorMessage : Str
  startedAt : Option Nat
  completedAt : Option Nat
  logText : Str
  deriving DecidableEq

/-- `retryTask`: `none` models `GetByID` failing (404, no write); otherwise
the row is reset and updated unconditionally (HTTP 200). -/
def retryTask (task : Option TaskRow) : Nat × Option TaskRow :=
  match task with
  | none => (404, none)
  | some t =>
    (200, some { t with
      status := .pending
      errorMessage := []
      startedAt := none
      completedAt := none })

/-- A task row in the `completed` terminal state. -/
def completedTask : TaskRow :=
  ⟨.completed, [], some 1, some 2, "log".toList⟩

/-!
## `subscribeClient` (api/websocket.go:116-140)

    h.mu.Lock(); defer h.mu.Unlock()
    if client.subscribedTask != "" && client.subscribedTask != taskID {
        clients := h.taskSubscribers[client.subscribedTask]
        for i, c := range clients {
            if c == client {
                h.taskSubscribers[client.subscribedTask] = append(clients[:i], clients[i+1:]...)
                break
            }
        }
    }
    client.subscribedTask = taskID
    h.taskSubscribers[taskID] = append(h.taskSubscribers[taskID], client)

The whole update happens under one acquisition of the hub's write lock, so
it is modelled as one atomic state transformation.  Clients are identified
by `Nat`; the subscriber map is a total function from task id to the
subscriber slice (absent keys map to `[]`, Go's zero slice).  An empty
`current` string models a client with no previous subscription.
-/

/-- The `for i, c := range clients` removal: drop the first occurrence. -/
def removeClient : List Nat → Nat → List Nat
  | [], _ => []
  | x :: rest, c => if x = c then rest else x :: removeClient rest c

/-- Point update of the subscriber map. -/
def updateSubs (m : Str → List Nat) (k : Str) (v : List Nat) : Str → List Nat :=
  fun t => if t = k then v else m t

/-- `subscribeClient`: returns the new subscriber map and the client's new
`subscribedTask` field. -/
def subscribeClient (m : Str → List Nat) (current : Str) (c : Nat)
    (taskID : Str) : (Str → List Nat) × Str :=
  let m1 :=
    if (if current = [] then false else if current = taskID then false else true) then
      updateSubs m current (removeClient (m current) c)
    else m
  (updateSubs m1 taskID (m1 taskID ++ [c]), taskID)

/-- Concrete subscriber map for the C9 witness: task `A` has subscribers
`5, 9`; task `B` has `3`. -/
def witnessSubs : Str → List Nat :=
  fun t => if t = "A".toList then [5, 9] else if t = "B".toList then [3] else []

/-!
## Theorems

The claims C1-C10 and the supporting lemmas, over the definitions above.
-/

theorem envLookup_mapInsert (m : EnvList) (k v q : Str) :
    envLookup (mapInsert m k v) q = if q = k then some v else envLookup m q := by
  induction m with
  | nil =>
    simp only [mapInsert, envLookup]
    by_cases hq : q = k
    · subst hq; simp
    · rw [if_neg (fun h => hq h.symm), if_neg hq]
  | cons hd tl ih =>
    obtain ⟨k', v'⟩ := hd
    by_cases hk : k' = k
    · subst hk
      simp only [mapInsert, if_pos rfl, envLookup]
      by_cases hq : q = k'
      · subst hq; simp
      · rw [if_neg (fun h => hq h.symm), if_neg hq, if_neg (fun h => hq h.symm)]
    · simp only [mapInsert, if_neg hk, envLookup, ih]
      by_cases hq : k' = q
      · subst hq
        rw [if_pos rfl, if_pos rfl,
          if_neg (fun h : k' = k => hk h)]
      · by_cases hqk : q = k
        · subst hqk; simp [hq]
        · simp [hq, hqk]

theorem lookupLast_append (a b : EnvList) (q : Str) :
    lookupLast (a ++ b) q =
      match lookupLast b q with
      | some v => some v
      | none => lookupLast a q := by
  induction a with
  | nil =>
    cases h : lookupLast b q <;> simp [lookupLast, h]
  | cons hd tl ih =>
    obtain ⟨k', v'⟩ := hd
    have e : lookupLast (((k', v') :: tl) ++ b) q =
        match lookupLast (tl ++ b) q with
        | some v => some v
        | none => if k' = q then some v' else none := rfl
    rw [e, ih]
    cases h : lookupLast b q
    · rfl
    · rfl

theorem envLookup_mapInsertAll (dst src : EnvList) (q : Str) :
    envLookup (mapInsertAll dst src) q =
      match lookupLast src q with
      | some v => some v
      | none => envLookup dst q := by
  induction src generalizing dst with
  | nil => simp [mapInsertAll, lookupLast]
  | cons hd tl ih =>
    obtain ⟨k, v⟩ := hd
    have step : mapInsertAll dst ((k, v) :: tl) = mapInsertAll (mapInsert dst k v) tl := rfl
    rw [step, ih]
    simp only [lookupLast, envLookup_mapInsert]
    cases h : lookupLast tl q
    · by_cases hq : q = k
      · subst hq; simp
      · have : ¬ k = q := fun h => hq h.symm
        simp [hq, this]
    · simp

theorem envLookup_mergeEnvironment (b w p s : EnvList) (q : Str) :
    envLookup (MergeEnvironment b w p s) q =
      match lookupLast s q with
      | some v => some v
      | none =>
        match lookupLast p q with
        | some v => some v
        | none =>
          match lookupLast w q with
          | some v => some v
          | none => lookupLast b q := by
  unfold MergeEnvironment
  rw [envLookup_mapInsertAll, envLookup_mapInsertAll, envLookup_mapInsertAll,
    envLookup_mapInsertAll]
  cases lookupLast s q <;> cases lookupLast p q <;> cases lookupLast w q <;>
    cases h : lookupLast b q <;> simp [envLookup]

theorem mapInsert_cons_eq (tl : EnvList) (k v v' : Str) :
    mapInsert ((k, v') :: tl) k v = (k, v) :: tl := by
  simp [mapInsert]

theorem mapInsert_cons_ne (tl : EnvList) (k' v' k v : Str) (h : ¬ k' = k) :
    mapInsert ((k', v') :: tl) k v = (k', v') :: mapInsert tl k v := by
  simp [mapInsert, h]

/-- Membership in the keys after a `mapInsert`. -/
theorem mem_envKeys_mapInsert (m : EnvList) (k v q : Str) :
    q ∈ envKeys (mapInsert m k v) ↔ q ∈ envKeys m ∨ q = k := by
  induction m with
  | nil => simp [mapInsert, envKeys]
  | cons hd tl ih =>
    obtain ⟨k', v'⟩ := hd
    by_cases hk : k' = k
    · subst hk
      rw [mapInsert_cons_eq]
      simp only [envKeys, List.map_cons, List.mem_cons]
      tauto
    · rw [mapInsert_cons_ne tl k' v' k v hk]
      simp only [envKeys, List.map_cons, List.mem_cons]
      simp only [envKeys] at ih
      rw [ih]
      tauto

/-- Keys of a `mapInsert` result are unique if they were unique before. -/
theorem nodup_keys_mapInsert (m : EnvList) (k v : Str)
    (h : (envKeys m).Nodup) : (envKeys (mapInsert m k v)).Nodup := by
  induction m with
  | nil => simp [mapInsert, envKeys]
  | cons hd tl ih =>
    obtain ⟨k', v'⟩ := hd
    simp only [envKeys, List.map_cons, List.nodup_cons] at h
    by_cases hk : k' = k
    · subst hk
      rw [mapInsert_cons_eq]
      simp only [envKeys, List.map_cons, List.nodup_cons]
      exact h
    · rw [mapInsert_cons_ne tl k' v' k v hk]
      simp only [envKeys, List.map_cons, List.nodup_cons]
      refine ⟨?_, ih h.2⟩
      intro hmem
      rcases (mem_envKeys_mapInsert tl k v k').mp hmem with h2 | h2
      · exact h.1 h2
      · exact hk h2

theorem nodup_keys_mapInsertAll (dst src : EnvList)
    (h : (envKeys dst).Nodup) : (envKeys (mapInsertAll dst src)).Nodup := by
  induction src generalizing dst with
  | nil => simpa [mapInsertAll]
  | cons hd tl ih =>
    have step : mapInsertAll dst (hd :: tl) = mapInsertAll (mapInsert dst hd.1 hd.2) tl := rfl
    rw [step]
    exact ih _ (nodup_keys_mapInsert _ _ _ h)

/-- A key that does not occur has no first-match binding. -/
theorem envLookup_eq_none_of_not_mem (m : EnvList) (q : Str)
    (h : q ∉ envKeys m) : envLookup m q = none := by
  induction m with
  | nil => rfl
  | cons hd tl ih =>
    obtain ⟨k', v'⟩ := hd
    simp only [envKeys, List.map_cons, List.mem_cons, not_or] at h
    simp only [envLookup]
    rw [if_neg (fun hh => h.1 hh.symm)]
    exact ih h.2

/-- On a list with unique keys, last-match lookup and first-match lookup
agree. -/
theorem lookupLast_eq_envLookup (m : EnvList) (h : (envKeys m).Nodup) (q : Str) :
    lookupLast m q = envLookup m q := by
  induction m with
  | nil => rfl
  | cons hd tl ih =>
    obtain ⟨k', v'⟩ := hd
    simp only [envKeys, List.map_cons, List.nodup_cons] at h
    simp only [lookupLast, envLookup, ih h.2]
    by_cases hq : k' = q
    · subst hq
      have hnone : envLookup tl k' = none := envLookup_eq_none_of_not_mem tl k' h.1
      simp [hnone]
    · cases henv : envLookup tl q <;> simp [hq, henv]

theorem nodup_keys_mergeEnvironment (b w p s : EnvList) :
    (envKeys (MergeEnvironment b w p s)).Nodup := by
  unfold MergeEnvironment
  refine nodup_keys_mapInsertAll _ _ (nodup_keys_mapInsertAll _ _
    (nodup_keys_mapInsertAll _ _ (nodup_keys_mapInsertAll _ _ ?_)))
  simp [envKeys]

/--
**C7.** For every key, the merged subprocess environment resolves to the
step-level value when the step defines the key, otherwise the plugin value,
otherwise the workflow value, otherwise the inherited base value.

* Part 1: `MergeEnvironment` itself (priority `stepEnv > pluginEnv >
  workflowEnv > baseEnv`).
* Part 2: the actual subprocess environment of a plugin step
  (scheduler/executor.go:644-657) — `os.Environ()` entries followed by the
  merged entries, resolved with Go's last-entry-wins rule — with the
  inherited process environment as the base layer.
* Part 3: the actual subprocess environment of a regular step
  (scheduler/executor.go:402-418) — inherited, then workflow env, then step
  env, later entries winning.
-/
theorem C7_env_precedence (b w p s environ g : EnvList) (q : Str) :
    (envLookup (MergeEnvironment b w p s) q =
      match lookupLast s q with
      | some v => some v
      | none =>
        match lookupLast p q with
        | some v => some v
        | none =>
          match lookupLast w q with
          | some v => some v
          | none => lookupLast b q) ∧
    (lookupLast (pluginCmdEnv environ (MergeEnvironment [] w p s)) q =
      match lookupLast s q with
      | some v => some v
      | none =>
        match lookupLast p q with
        | some v => some v
        | none =>
          match lookupLast w q with
          | some v => some v
          | none => lookupLast environ q) ∧
    (lookupLast (stepCmdEnv environ g s) q =
      match lookupLast s q with
      | some v => some v
      | none =>
        match lookupLast g q with
        | some v => some v
        | none => lookupLast environ q) := by
  refine ⟨envLookup_mergeEnvironment b w p s q, ?_, ?_⟩
  · unfold pluginCmdEnv
    rw [lookupLast_append,
      lookupLast_eq_envLookup _ (nodup_keys_mergeEnvironment [] w p s),
      envLookup_mergeEnvironment]
    cases lookupLast s q <;> cases lookupLast p q <;> cases lookupLast w q <;>
      simp [lookupLast]
  · unfold stepCmdEnv
    rw [List.append_assoc, lookupLast_append, lookupLast_append]
    cases lookupLast s q <;> cases lookupLast g q <;> simp

theorem defaults_pass_lookup (decls : InputDecls) (q : Str) :
    envLookup (decls.foldl (fun m d =>
      match d.2.default with
      | some v => mapInsert m d.1 v
      | none => m) []) q = lookupLast (defaultsOf decls) q := by
  suffices h : ∀ (m : EnvList),
      envLookup (decls.foldl (fun m d =>
        match d.2.default with
        | some v => mapInsert m d.1 v
        | none => m) m) q =
      match lookupLast (defaultsOf decls) q with
      | some v => some v
      | none => envLookup m q by
    rw [h []]
    cases lookupLast (defaultsOf decls) q <;> simp [envLookup]
  induction decls with
  | nil => intro m; simp [defaultsOf, lookupLast]
  | cons d tl ih =>
    intro m
    obtain ⟨n, inp⟩ := d
    cases hdef : inp.default with
    | none =>
      simp only [List.foldl_cons, hdef]
      rw [ih]
      have : defaultsOf ((n, inp) :: tl) = defaultsOf tl := by
        simp [defaultsOf, hdef]
      rw [this]
    | some v =>
      simp only [List.foldl_cons, hdef]
      rw [ih]
      have : defaultsOf ((n, inp) :: tl) = (n, v) :: defaultsOf tl := by
        simp [defaultsOf, hdef]
      rw [this]
      simp only [lookupLast, envLookup_mapInsert]
      cases h2 : lookupLast (defaultsOf tl) q
      · by_cases hq : q = n
        · subst hq; simp
        · have : ¬ n = q := fun h => hq h.symm
          simp [hq, this]
      · simp

theorem mergedInputs_lookup (decls : InputDecls) (provided : EnvList) (q : Str) :
    envLookup (mergedInputs decls provided) q =
      match lookupLast provided q with
      | some v => some v
      | none => lookupLast (defaultsOf decls) q := by
  unfold mergedInputs
  rw [envLookup_mapInsertAll, defaults_pass_lookup]

/--
**C8.** Preparing a plugin's inputs applies the declared default values
first, overrides them with the caller-provided `with` values, and fails
exactly when some input declared `required` has no final value; otherwise it
returns the merged map.

* Part 1: the final value of every input name is the caller-provided value
  when one is given, otherwise the declared default.
* Part 2: if some declared required input has no final value, preparation
  returns an error.
* Part 3: if every declared required input has a final value, preparation
  returns the merged map.
-/
theorem C8_prepare_plugin_inputs (decls : InputDecls) (provided : EnvList) :
    (∀ q, envLookup (mergedInputs decls provided) q =
      match lookupLast provided q with
      | some v => some v
      | none => lookupLast (defaultsOf decls) q) ∧
    ((∃ d ∈ decls, d.2.required = true ∧
        envLookup (mergedInputs decls provided) d.1 = none) →
      ∃ msg, PreparePluginInputs decls provided = Except.error msg) ∧
    ((∀ d ∈ decls, d.2.required = true →
        (envLookup (mergedInputs decls provided) d.1).isSome) →
      PreparePluginInputs decls provided = Except.ok (mergedInputs decls provided)) := by
  refine ⟨fun q => mergedInputs_lookup decls provided q, ?_, ?_⟩
  · rintro ⟨d, hd, hreq, hnone⟩
    unfold PreparePluginInputs
    have : (decls.find? (fun d => d.2.required &&
        (envLookup (mergedInputs decls provided) d.1).isNone)).isSome := by
      rw [List.find?_isSome]
      exact ⟨d, hd, by simp [hreq, hnone]⟩
    cases hfind : decls.find? (fun d => d.2.required &&
        (envLookup (mergedInputs decls provided) d.1).isNone) with
    | none => rw [hfind] at this; simp at this
    | some d' => exact ⟨d'.1, by simp [hfind]⟩
  · intro hall
    unfold PreparePluginInputs
    have : decls.find? (fun d => d.2.required &&
        (envLookup (mergedInputs decls provided) d.1).isNone) = none := by
      rw [List.find?_eq_none]
      intro d hd
      simp only [Bool.and_eq_true, Option.isNone_iff_eq_none, not_and]
      intro hreq
      have := hall d hd hreq
      simp only [Option.isSome_iff_exists] at this
      obtain ⟨v, hv⟩ := this
      simp [hv]
    simp [this]

/-- Concrete instantiation of the hypotheses of `C8_prepare_plugin_inputs`:
a required input with no default and no provided value is an error, and a
fully-supplied declaration list yields the merged map. -/
theorem C8_prepare_plugin_inputs_witness :
    (∃ msg, PreparePluginInputs
        [(['q'], ⟨none, true⟩)] [] = Except.error msg) ∧
    PreparePluginInputs
        [(['q'], ⟨some ['d'], true⟩), (['r'], ⟨none, false⟩)]
        [(['q'], ['p'])] =
      Except.ok (mergedInputs
        [(['q'], ⟨some ['d'], true⟩), (['r'], ⟨none, false⟩)]
        [(['q'], ['p'])]) := by
  constructor
  · exact (C8_prepare_plugin_inputs [(['q'], ⟨none, true⟩)] []).2.1
      ⟨(['q'], ⟨none, true⟩), by simp, rfl, by decide⟩
  · exact (C8_prepare_plugin_inputs
      [(['q'], ⟨some ['d'], true⟩), (['r'], ⟨none, false⟩)]
      [(['q'], ['p'])]).2.2 (by decide)

theorem startsWith_self (l : Str) : startsWith l l = true := by
  induction l with
  | nil => rfl
  | cons c rest ih => simp [startsWith, ih]

theorem replaceAll_nil (old new : Str) : replaceAll old new [] = [] := by
  simp [replaceAll]

theorem replaceAll_cons_pos (old new : Str) (c : Char) (rest : Str)
    (h1 : old ≠ []) (h2 : startsWith old (c :: rest) = true) :
    replaceAll old new (c :: rest) =
      new ++ replaceAll old new (rest.drop (old.length - 1)) := by
  rw [replaceAll]
  rw [dif_pos ⟨h1, h2⟩]

theorem replaceAll_cons_neg (old new : Str) (c : Char) (rest : Str)
    (h : ¬ (old ≠ [] ∧ startsWith old (c :: rest) = true)) :
    replaceAll old new (c :: rest) = c :: replaceAll old new rest := by
  rw [replaceAll]
  rw [dif_neg h]

/-- A string that does not contain the pattern is returned unchanged. -/
theorem replaceAll_of_not_contains (old new s : Str)
    (h : containsSub s old = false) : replaceAll old new s = s := by
  induction s with
  | nil => exact replaceAll_nil old new
  | cons c rest ih =>
    simp only [containsSub, Bool.or_eq_false_iff] at h
    rw [replaceAll_cons_neg old new c rest (fun hc => by
      rw [hc.2] at h; exact Bool.noConfusion h.1)]
    rw [ih h.2]

/-- Replacing the pattern inside the pattern itself yields the replacement. -/
theorem replaceAll_self (old new : Str) (h : old ≠ []) :
    replaceAll old new old = new := by
  cases old with
  | nil => exact absurd rfl h
  | cons c rest =>
    rw [replaceAll_cons_pos (c :: rest) new c rest h (startsWith_self _)]
    simp only [List.length_cons, Nat.add_sub_cancel, List.drop_length]
    rw [replaceAll_nil]
    simp

/--
**C10.** `SubstituteVariables` replaces exactly the six placeholders written
precisely as `${{ input_path }}`, `${{ output_path }}`, `${{ file_name }}`,
`${{ file_dir }}`, `${{ file_base }}`, `${{ file_ext }}` (single space on
each side inside the braces):

* Part 1: any template containing none of the six exact placeholder
  spellings — in particular any differently-spaced spelling such as
  `${{input_path}}`, exercised by the witness — is returned unchanged.
* Part 2: each exact placeholder is substituted by the corresponding
  variable (stated for substitution-free variable values, which make the
  result independent of Go's map iteration order).
-/
theorem C10_substitute_variables (v : Variables) :
    (∀ t, noPlaceholders t → SubstituteVariables t v = t) ∧
    (cleanVars v →
      SubstituteVariables phInputPath v = v.InputPath ∧
      SubstituteVariables phOutputPath v = v.OutputPath ∧
      SubstituteVariables phFileName v = v.FileName ∧
      SubstituteVariables phFileDir v = v.FileDir ∧
      SubstituteVariables phFileBase v = v.FileBase ∧
      SubstituteVariables phFileExt v = v.FileExt) := by
  constructor
  · intro t ht
    have h1 := ht phInputPath (by simp [placeholderStrings])
    have h2 := ht phOutputPath (by simp [placeholderStrings])
    have h3 := ht phFileName (by simp [placeholderStrings])
    have h4 := ht phFileDir (by simp [placeholderStrings])
    have h5 := ht phFileBase (by simp [placeholderStrings])
    have h6 := ht phFileExt (by simp [placeholderStrings])
    simp only [SubstituteVariables]
    rw [replaceAll_of_not_contains _ _ _ h1, replaceAll_of_not_contains _ _ _ h2,
      replaceAll_of_not_contains _ _ _ h3, replaceAll_of_not_contains _ _ _ h4,
      replaceAll_of_not_contains _ _ _ h5, replaceAll_of_not_contains _ _ _ h6]
  · intro hv
    obtain ⟨hv1, hv2, hv3, hv4, hv5, hv6⟩ := hv
    refine ⟨?_, ?_, ?_, ?_, ?_, ?_⟩
    · simp only [SubstituteVariables]
      rw [replaceAll_self _ _ (by decide),
        replaceAll_of_not_contains _ _ _ (hv1 phOutputPath (by simp [placeholderStrings])),
        replaceAll_of_not_contains _ _ _ (hv1 phFileName (by simp [placeholderStrings])),
        replaceAll_of_not_contains _ _ _ (hv1 phFileDir (by simp [placeholderStrings])),
        replaceAll_of_not_contains _ _ _ (hv1 phFileBase (by simp [placeholderStrings])),
        replaceAll_of_not_contains _ _ _ (hv1 phFileExt (by simp [placeholderStrings]))]
    · simp only [SubstituteVariables]
      rw [replaceAll_of_not_contains _ _ _ (by decide : containsSub phOutputPath phInputPath = false),
        replaceAll_self _ _ (by decide),
        replaceAll_of_not_contains _ _ _ (hv2 phFileName (by simp [placeholderStrings])),
        replaceAll_of_not_contains _ _ _ (hv2 phFileDir (by simp [placeholderStrings])),
        replaceAll_of_not_contains _ _ _ (hv2 phFileBase (by simp [placeholderStrings])),
        replaceAll_of_not_contains _ _ _ (hv2 phFileExt (by simp [placeholderStrings]))]
    · simp only [SubstituteVariables]
      rw [replaceAll_of_not_contains _ _ _ (by decide : containsSub phFileName phInputPath = false),
        replaceAll_of_not_contains _ _ _ (by decide : containsSub phFileName phOutputPath = false),
        replaceAll_self _ _ (by decide),
        replaceAll_of_not_contains _ _ _ (hv3 phFileDir (by simp [placeholderStrings])),
        replaceAll_of_not_contains _ _ _ (hv3 phFileBase (by simp [placeholderStrings])),
        replaceAll_of_not_contains _ _ _ (hv3 phFileExt (by simp [placeholderStrings]))]
    · simp only [SubstituteVariables]
      rw [replaceAll_of_not_contains _ _ _ (by decide : containsSub phFileDir phInputPath = false),
        replaceAll_of_not_contains _ _ _ (by decide : containsSub phFileDir phOutputPath = false),
        replaceAll_of_not_contains _ _ _ (by decide : containsSub phFileDir phFileName = false),
        replaceAll_self _ _ (by decide),
        replaceAll_of_not_contains _ _ _ (hv4 phFileBase (by simp [placeholderStrings])),
        replaceAll_of_not_contains _ _ _ (hv4 phFileExt (by simp [placeholderStrings]))]
    · simp only [SubstituteVariables]
      rw [replaceAll_of_not_contains _ _ _ (by decide : containsSub phFileBase phInputPath = false),
        replaceAll_of_not_contains _ _ _ (by decide : containsSub phFileBase phOutputPath = false),
        replaceAll_of_not_contains _ _ _ (by decide : containsSub phFileBase phFileName = false),
        replaceAll_of_not_contains _ _ _ (by decide : containsSub phFileBase phFileDir = false),
        replaceAll_self _ _ (by decide),
        replaceAll_of_not_contains _ _ _ (hv5 phFileExt (by simp [placeholderStrings]))]
    · simp only [SubstituteVariables]
      rw [replaceAll_of_not_contains _ _ _ (by decide : containsSub phFileExt phInputPath = false),
        replaceAll_of_not_contains _ _ _ (by decide : containsSub phFileExt phOutputPath = false),
        replaceAll_of_not_contains _ _ _ (by decide : containsSub phFileExt phFileName = false),
        replaceAll_of_not_contains _ _ _ (by decide : containsSub phFileExt phFileDir = false),
        replaceAll_of_not_contains _ _ _ (by decide : containsSub phFileExt phFileBase = false),
        replaceAll_self _ _ (by decide)]

/-- Concrete instantiation of `C10_substitute_variables`: the tightly-spaced
spelling is untouched, and the exact spelling is substituted. -/
theorem C10_substitute_variables_witness :
    SubstituteVariables "$\x7b\x7binput_path\x7d\x7d".toList witnessVars =
      "$\x7b\x7binput_path\x7d\x7d".toList ∧
    SubstituteVariables phInputPath witnessVars = "/in/a.txt".toList := by
  constructor
  · exact (C10_substitute_variables witnessVars).1 _ (by decide)
  · exact ((C10_substitute_variables witnessVars).2 (by decide)).1

/--
**C4.** The claim — a file matching a configured ignore pattern is skipped
during scans, with no File row and no Task — fails on the code: the scan
pipeline never consults the ignore patterns.  At the concrete failing input,
`/data/skipme.txt` matches the configured ignore pattern `skipme.txt`, yet
scanning it as a new file creates a File row and emits a Task.
-/
theorem C4_ignored_file_still_scanned :
    MatchesIgnorePattern "/data/skipme.txt".toList wdefC4.Options.Ignore = true ∧
    scanFile wdefC4 "/data/skipme.txt".toList none "abc".toList =
      ⟨true, false, true⟩ := by
  constructor
  · decide
  · decide

/--
**C5.** The claim — the parsed `skip_on_nochange` equals the YAML value when
present, and an unchanged file under `skip_on_nochange: false` still emits a
Task — fails on the code: `Parse` assigns `SkipOnNoChange = true`
unconditionally (parser.go:75), after the YAML value has been decoded.  At
the concrete failing input the YAML sets `skip_on_nochange: false`, yet the
parsed workflow has it `true`, and scanning an unchanged file under it
emits no Task.
-/
theorem C5_skip_on_nochange_forced_true :
    rawC5.Options.SkipOnNoChange = false ∧
    Parse rawC5 = Except.ok parsedC5 ∧
    parsedC5.Options.SkipOnNoChange = true ∧
    scanFile parsedC5 "/data/a.txt".toList (some "abc".toList) "abc".toList =
      ⟨false, false, false⟩ := by
  refine ⟨rfl, ?_, rfl, ?_⟩
  · rfl
  · decide

/--
**C1.** The exit-code mapping of `executeStep`, as observed through
`ExecuteTask`:

* `0`: the step row is `completed` and execution continues with the
  remaining steps (the loop outcome is that of the rest);
* `100`: the step row is `completed`, the workflow stops — even with later
  steps present no further step row is created — and the task ends
  `completed`;
* `101`: the step row is `failed`, the workflow stops, and the task ends
  `failed`;
* any other non-zero code: the step row is `failed`, the workflow stops,
  and the task ends `failed`.
-/
theorem C1_exit_code_mapping :
    (∀ rest, stepLoop (.exits 0 :: rest) =
      (⟨0, .completed⟩ :: (stepLoop rest).1,
        (stepLoop rest).2.1, (stepLoop rest).2.2)) ∧
    (∀ rest, ExecuteTask .pending true (.exits 100 :: rest) =
      ⟨[.running, .completed], [⟨100, .completed⟩], true, false⟩) ∧
    (∀ rest, ExecuteTask .pending true (.exits 101 :: rest) =
      ⟨[.running, .failed], [⟨101, .failed⟩], true, false⟩) ∧
    (∀ (code : Int) rest, ¬ code = 0 → ¬ code = 100 → ¬ code = 101 →
      ExecuteTask .pending true (.exits code :: rest) =
      ⟨[.running, .failed], [⟨code, .failed⟩], true, false⟩) := by
  refine ⟨fun rest => ?_, fun rest => ?_, fun rest => ?_,
    fun code rest h0 h100 h101 => ?_⟩
  · simp [stepLoop, stepSignalOf, stepStatusOf]
  · simp [ExecuteTask, stepLoop, stepSignalOf, stepStatusOf]
  · simp [ExecuteTask, stepLoop, stepSignalOf, stepStatusOf]
  · simp [ExecuteTask, stepLoop, stepSignalOf, stepStatusOf, h0, h100, h101]

/-- Concrete instantiation of the last part of `C1_exit_code_mapping`: exit
code 7 with a later step present fails the task with a single step row. -/
theorem C1_exit_code_mapping_witness :
    ExecuteTask .pending true [.exits 7, .exits 0] =
      ⟨[.running, .failed], [⟨7, .failed⟩], true, false⟩ :=
  C1_exit_code_mapping.2.2.2 7 [.exits 0]
    (by decide) (by decide) (by decide)

/--
**C2.** The claim — cancelling a task whose subprocess is in flight
terminates the subprocess and leaves the task's *final* persisted status
`cancelled` — fails on the code.  The subprocess is indeed killed, and
`CancelTask` persists `cancelled` (scheduler.go:175), but the executor then
continues: the killed step fails with exit code -1, the loop breaks, and the
epilogue's full-row `Update` (executor.go:326-358) persists `failed`
("One or more steps failed") *after* the `cancelled` write, so the status
that remains is `failed`.
-/
theorem C2_cancelled_task_persists_failed :
    ExecuteTask .pending true [.killedByCancel] =
      ⟨[.running, .cancelled, .failed], [⟨-1, .failed⟩], true, false⟩ ∧
    finalPersistedStatus (ExecuteTask .pending true [.killedByCancel]) =
      some .failed := by
  constructor
  · decide
  · decide

/--
**C6.** The claim — every terminal task has non-empty `log_text` and no
remaining scratch log file, including when the task fails because the output
directory could not be created — fails on the code at exactly that input:
when `os.MkdirAll` fails (executor.go:218-228), the task is persisted
`failed` (terminal) but the function returns before the `LogText`
assignment (executor.go:348-354) and before the scratch-file removal
(executor.go:363-366), so `log_text` stays empty and
`<logDir>/<taskID>.log` survives.
-/
theorem C6_mkdir_failure_skips_log_cleanup :
    finalPersistedStatus (ExecuteTask .pending false [.exits 0]) =
      some .failed ∧
    (ExecuteTask .pending false [.exits 0]).logTextSet = false ∧
    (ExecuteTask .pending false [.exits 0]).scratchExists = true := by
  refine ⟨?_, ?_, ?_⟩
  · decide
  · decide
  · decide

/--
**C3 counterexample.** The claim says retrying a `completed` task is
forbidden and leaves the row unchanged; in fact `retryTask` accepts it and
rewrites the row to `pending` with cleared timestamps.
-/
theorem C3_counterexample_completed_retried :
    retryTask (some completedTask) =
      (200, some ⟨.pending, [], none, none, "log".toList⟩) ∧
    ¬ (retryTask (some completedTask)).2 = some completedTask := by
  constructor
  · decide
  · decide

/--
**C3 (amended).** The user-initiated retry resets *any* found task to
`pending` — clearing the error message and both timestamps and keeping the
log text — regardless of its current status; no status is excluded, so
`failed` and `cancelled` tasks are retried as the claim says, but a
`completed` task is reset identically rather than being rejected.
-/
theorem C3_retry_resets_any_status (t : TaskRow) :
    retryTask (some t) = (200, some ⟨.pending, [], none, none, t.logText⟩) := by
  obtain ⟨s, e, st, c, l⟩ := t
  rfl

/-- Dropping the only occurrence removes the element. -/
theorem notMem_removeClient (l : List Nat) (c : Nat)
    (h : l.count c ≤ 1) : c ∉ removeClient l c := by
  induction l with
  | nil => simp [removeClient]
  | cons x rest ih =>
    by_cases hx : x = c
    · subst hx
      rw [List.count_cons_self] at h
      have : rest.count x = 0 := by omega
      simp only [removeClient, if_pos rfl]
      exact List.count_eq_zero.mp this
    · rw [List.count_cons_of_ne (fun hh => hx hh.symm)] at h
      simp only [removeClient, if_neg hx]
      intro hmem
      rcases List.mem_cons.mp hmem with hh | hh
      · exact hx hh.symm
      · exact ih h hh

/--
**C9.** A connected subscriber already subscribed to task `a` that sends a
`subscribe` for a different task `b` is removed from `a`'s subscriber set
(it no longer occurs there, given the invariant that a client is subscribed
at most once per task), appended to `b`'s set, recorded as subscribed to
`b`, and the subscriber set of every other task is unchanged — all in the
one atomic map transformation performed under the hub's write lock.
-/
theorem C9_subscribe_switches_atomically (m : Str → List Nat) (a b : Str)
    (c : Nat) (ha : ¬ a = []) (hab : ¬ a = b) (hcount : (m a).count c ≤ 1) :
    (subscribeClient m a c b).2 = b ∧
    (subscribeClient m a c b).1 a = removeClient (m a) c ∧
    c ∉ (subscribeClient m a c b).1 a ∧
    (subscribeClient m a c b).1 b = m b ++ [c] ∧
    ∀ t, ¬ t = a → ¬ t = b → (subscribeClient m a c b).1 t = m t := by
  have hba : ¬ b = a := fun h => hab h.symm
  have hA : (subscribeClient m a c b).1 a = removeClient (m a) c := by
    simp [subscribeClient, updateSubs, ha, hab]
  refine ⟨rfl, hA, ?_, ?_, ?_⟩
  · rw [hA]
    exact notMem_removeClient (m a) c hcount
  · simp [subscribeClient, updateSubs, ha, hab, hba]
  · intro t hta htb
    simp [subscribeClient, updateSubs, ha, hab, hta, htb]

/-- Concrete instantiation of `C9_subscribe_switches_atomically`: client 5
moves from `A` to `B`; `A` keeps `9`, `B` becomes `3, 5`, `C` stays empty. -/
theorem C9_subscribe_switches_atomically_witness :
    (subscribeClient witnessSubs "A".toList 5 "B".toList).1 "A".toList = [9] ∧
    5 ∉ (subscribeClient witnessSubs "A".toList 5 "B".toList).1 "A".toList ∧
    (subscribeClient witnessSubs "A".toList 5 "B".toList).1 "B".toList = [3, 5] ∧
    (subscribeClient witnessSubs "A".toList 5 "B".toList).1 "C".toList = [] := by
  have h := C9_subscribe_switches_atomically witnessSubs "A".toList "B".toList 5
    (by decide) (by decide) (by decide)
  refine ⟨?_, h.2.2.1, ?_, ?_⟩
  · rw [h.2.1]; decide
  · rw [h.2.2.2.1]; decide
  · rw [h.2.2.2.2 "C".toList (by decide) (by decide)]; decide
